import Mathlib

/-!
Verification development for the Crypto-App repository (vanilla JS crypto
price dashboard).  The definitions below are a shallow embedding of the
JavaScript sources:

* `src/js/api.js`   — `CryptoAPI`: TTL cache, the three fetch operations,
  `searchCoins`, `clearCache`;
* `src/js/utils.js` — `formatPercentage`, `getChangeClass`, `getChangeArrow`;
* `src/js/favorites.js` — the favorites set operations;
* `src/js/main.js`  — `CryptoApp.loadData` / `updateGlobalStats`.

Modelling conventions:

* JS strings are Lean `String` (a wrapper around `List Char`).  The ASCII
  fragments of `toLowerCase`, `trim` and `includes` are embedded directly;
  the claims only exercise ASCII data.
* JS numbers appearing as percentages are embedded as `ℚ` (all values the
  claims touch are exactly representable); `null`/`undefined` inputs are
  `Option.none`.  Page / per-page / day counts are `Nat` (the code always
  passes integers) and timestamps are `Int`.
* JSON response bodies are an inductive `Json` with the JS truthiness
  predicate, because the call sites test `if (cached)` on decoded data.
* Async fetch operations are state functions: they take the cache state, the
  current clock value `now` (one `Date.now()` sample per call), and a network
  oracle describing how the single HTTP request of that call would resolve;
  they return the result, the new cache state, and the number of network
  requests issued.
-/

namespace Crypto

/-! ## JS string primitives (ASCII fragment) -/

/-- Embeds JS `String.prototype.toLowerCase` on a single ASCII character:
`'A'..'Z'` map to `'a'..'z'`, everything else is unchanged. -/
def lowerChar (c : Char) : Char :=
  if 65 ≤ c.toNat && c.toNat ≤ 90 then Char.ofNat (c.toNat + 32) else c

/-- Embeds JS `String.prototype.toLowerCase` (ASCII fragment). -/
def jsToLower (s : String) : String := ⟨s.data.map lowerChar⟩

/-- Whitespace recognised by JS `String.prototype.trim` (ASCII fragment:
space, tab, line feed, vertical tab, form feed, carriage return). -/
def isJsWhitespace (c : Char) : Bool :=
  c == ' ' || c == '\t' || c == '\n' || c == '\x0b' || c == '\x0c' || c == '\r'

/-- Embeds JS `String.prototype.trim`: drop whitespace from both ends. -/
def jsTrim (s : String) : String :=
  ⟨((s.data.dropWhile isJsWhitespace).reverse.dropWhile isJsWhitespace).reverse⟩

/-- Does `l` start with `p`?  (Helper for substring containment.) -/
def startsWithL : List Char → List Char → Bool
  | _, [] => true
  | [], _ :: _ => false
  | a :: s, b :: t => a == b && startsWithL s t

/-- Does `hay` contain `needle` as a contiguous substring? -/
def containsL : List Char → List Char → Bool
  | [], needle => startsWithL [] needle
  | a :: t, needle => startsWithL (a :: t) needle || containsL t needle

/-- Embeds JS `String.prototype.includes` (substring containment). -/
def jsIncludes (s sub : String) : Bool := containsL s.data sub.data

/-! ## Decimal rendering of naturals

Embeds JS `Number.prototype.toString` on the non-negative integers the code
interpolates into template literals (`page`, `perPage`, `days`).  Structural
recursion on a fuel argument keeps the definition kernel-reducible. -/

/-- Digit characters of `n` (most significant first), with `fuel` bounding the
recursion depth; correct whenever `n < fuel`. -/
def digitsAux : Nat → Nat → List Char
  | 0, _ => []
  | fuel + 1, n =>
    if n < 10 then [Char.ofNat (48 + n)]
    else digitsAux fuel (n / 10) ++ [Char.ofNat (48 + n % 10)]

/-- Decimal string of a natural number, as JS `(n).toString()` produces it. -/
def natToString (n : Nat) : String := ⟨digitsAux (n + 1) n⟩

/-- Left inverse of digit rendering: read a digit list back as a number. -/
def undigits (l : List Char) : Nat :=
  l.foldl (fun a c => 10 * a + (c.toNat - 48)) 0

theorem toNat_ofNat_digit : ∀ k, k < 10 → (Char.ofNat (48 + k)).toNat = 48 + k := by
  decide

theorem undigits_digitsAux : ∀ fuel n, n < fuel → undigits (digitsAux fuel n) = n := by
  intro fuel
  induction fuel with
  | zero => intro n h; exact absurd h (Nat.not_lt_zero n)
  | succ f ih =>
    intro n h
    by_cases h10 : n < 10
    · simp only [digitsAux, if_pos h10, undigits, List.foldl]
      rw [toNat_ofNat_digit n h10]
      omega
    · have hdiv : n / 10 < n := Nat.div_lt_self (by omega) (by omega)
      have hf : n / 10 < f := by omega
      simp only [digitsAux, if_neg h10, undigits, List.foldl_append, List.foldl]
      rw [toNat_ofNat_digit (n % 10) (Nat.mod_lt n (by omega))]
      have hrec := ih (n / 10) hf
      unfold undigits at hrec
      rw [hrec]
      omega

theorem natToString_inj {n m : Nat} (h : natToString n = natToString m) : n = m := by
  have hd : digitsAux (n + 1) n = digitsAux (m + 1) m := congrArg String.data h
  have h1 := undigits_digitsAux (n + 1) n (Nat.lt_succ_self n)
  have h2 := undigits_digitsAux (m + 1) m (Nat.lt_succ_self m)
  rw [← h1, ← h2, hd]

theorem mem_digitsAux_isDigit :
    ∀ fuel n c, c ∈ digitsAux fuel n → 48 ≤ c.toNat ∧ c.toNat < 58 := by
  intro fuel
  induction fuel with
  | zero => intro n c h; simp [digitsAux] at h
  | succ f ih =>
    intro n c h
    by_cases h10 : n < 10
    · simp only [digitsAux, if_pos h10, List.mem_singleton] at h
      subst h
      rw [toNat_ofNat_digit n h10]
      omega
    · simp only [digitsAux, if_neg h10, List.mem_append, List.mem_singleton] at h
      rcases h with h | h
      · exact ih (n / 10) c h
      · subst h
        rw [toNat_ofNat_digit (n % 10) (Nat.mod_lt n (by omega))]
        omega

theorem underscore_not_mem_natToString (n : Nat) : '_' ∉ (natToString n).data := by
  intro h
  have := mem_digitsAux_isDigit (n + 1) n '_' h
  simp at this

/-! ## Cache keys

`api.js` builds cache keys by template-literal concatenation:
`` `coins_${page}_${perPage}` `` (line 78), `"global_data"` (line 103) and
`` `history_${coinId}_${days}` `` (line 124). -/

def coinsKey (page perPage : Nat) : String :=
  "coins_" ++ natToString page ++ "_" ++ natToString perPage

def globalKey : String := "global_data"

def historyKey (coinId : String) (days : Nat) : String :=
  "history_" ++ coinId ++ "_" ++ natToString days

theorem data_append (a b : String) : (a ++ b).data = a.data ++ b.data := by
  cases a; cases b; rfl

theorem string_eq_of_data_eq {a b : String} (h : a.data = b.data) : a = b := by
  cases a; cases b; exact congrArg String.mk h

theorem append_inj_right : ∀ (l s t : List Char), l ++ s = l ++ t → s = t := by
  intro l
  induction l with
  | nil => intro s t h; simpa using h
  | cons a l ih =>
    intro s t h
    simp only [List.cons_append, List.cons.injEq] at h
    exact ih s t h.2

/-- Splitting a character list at the last occurrence of `'_'` is unambiguous:
if neither suffix contains `'_'`, both decompositions agree. -/
theorem append_sep_inj :
    ∀ (l1 l2 m1 m2 : List Char),
      l1 ++ '_' :: m1 = l2 ++ '_' :: m2 → '_' ∉ m1 → '_' ∉ m2 →
      l1 = l2 ∧ m1 = m2 := by
  intro l1
  induction l1 with
  | nil =>
    intro l2 m1 m2 h hm1 hm2
    cases l2 with
    | nil =>
      simp only [List.nil_append, List.cons.injEq] at h
      exact ⟨rfl, h.2⟩
    | cons b t2 =>
      simp only [List.nil_append, List.cons_append, List.cons.injEq] at h
      exfalso
      apply hm1
      rw [h.2]
      exact List.mem_append.mpr (Or.inr (List.mem_cons_self _ _))
  | cons a t1 ih =>
    intro l2 m1 m2 h hm1 hm2
    cases l2 with
    | nil =>
      simp only [List.nil_append, List.cons_append, List.cons.injEq] at h
      exfalso
      apply hm2
      rw [← h.2]
      exact List.mem_append.mpr (Or.inr (List.mem_cons_self _ _))
    | cons b t2 =>
      simp only [List.cons_append, List.cons.injEq] at h
      obtain ⟨hab, ht⟩ := h
      obtain ⟨h1, h2⟩ := ih t2 m1 m2 ht hm1 hm2
      exact ⟨by rw [hab, h1], h2⟩

theorem coinsKey_data (p q : Nat) :
    (coinsKey p q).data
      = "coins_".data ++ ((natToString p).data ++ '_' :: (natToString q).data) := by
  simp [coinsKey, data_append, List.append_assoc]

theorem historyKey_data (c : String) (d : Nat) :
    (historyKey c d).data
      = "history_".data ++ (c.data ++ '_' :: (natToString d).data) := by
  simp [historyKey, data_append, List.append_assoc]

/-- C4: the cache-key construction is injective across and within the three
request shapes — distinct `(page, perPage)` pairs, distinct
`(coinId, days)` pairs (with `coinId` an arbitrary string), and keys of
different shapes (including the fixed global-data key) never produce the
same cache-key string; in particular two `getCoinHistory` calls with
different day counts never collide. -/
theorem cacheKeys_injective :
    (∀ p q p' q' : Nat, coinsKey p q = coinsKey p' q' → p = p' ∧ q = q') ∧
    (∀ (c c' : String) (d d' : Nat),
        historyKey c d = historyKey c' d' → c = c' ∧ d = d') ∧
    (∀ p q : Nat, coinsKey p q ≠ globalKey) ∧
    (∀ (c : String) (d : Nat), historyKey c d ≠ globalKey) ∧
    (∀ (p q : Nat) (c : String) (d : Nat), coinsKey p q ≠ historyKey c d) := by
  refine ⟨?_, ?_, ?_, ?_, ?_⟩
  · intro p q p' q' h
    have hd := congrArg String.data h
    rw [coinsKey_data, coinsKey_data] at hd
    have h2 := append_inj_right _ _ _ hd
    obtain ⟨hp, hq⟩ := append_sep_inj _ _ _ _ h2
      (underscore_not_mem_natToString q) (underscore_not_mem_natToString q')
    exact ⟨natToString_inj (string_eq_of_data_eq hp),
           natToString_inj (string_eq_of_data_eq hq)⟩
  · intro c c' d d' h
    have hd := congrArg String.data h
    rw [historyKey_data, historyKey_data] at hd
    have h2 := append_inj_right _ _ _ hd
    obtain ⟨hc, hdy⟩ := append_sep_inj _ _ _ _ h2
      (underscore_not_mem_natToString d) (underscore_not_mem_natToString d')
    exact ⟨string_eq_of_data_eq hc, natToString_inj (string_eq_of_data_eq hdy)⟩
  · intro p q h
    have hd := congrArg String.data h
    rw [coinsKey_data] at hd
    rw [show ("coins_" : String).data = 'c' :: "oins_".data from rfl,
        show (globalKey : String).data = 'g' :: "lobal_data".data from rfl,
        List.cons_append] at hd
    injection hd with h1 _
    exact absurd h1 (by decide)
  · intro c d h
    have hd := congrArg String.data h
    rw [historyKey_data] at hd
    rw [show ("history_" : String).data = 'h' :: "istory_".data from rfl,
        show (globalKey : String).data = 'g' :: "lobal_data".data from rfl,
        List.cons_append] at hd
    injection hd with h1 _
    exact absurd h1 (by decide)
  · intro p q c d h
    have hd := congrArg String.data h
    rw [coinsKey_data, historyKey_data] at hd
    rw [show ("coins_" : String).data = 'c' :: "oins_".data from rfl,
        show ("history_" : String).data = 'h' :: "istory_".data from rfl,
        List.cons_append, List.cons_append] at hd
    injection hd with h1 _
    exact absurd h1 (by decide)

/-- Concrete instance of `cacheKeys_injective`: evaluated keys at sample
parameters, with each hypothesis discharged on concrete input. -/
theorem cacheKeys_injective_witness :
    (1 = 1 ∧ 50 = 50) ∧ ("bitcoin" = "bitcoin" ∧ 7 = 7) ∧
      coinsKey 1 50 = "coins_1_50" ∧ historyKey "bitcoin" 7 = "history_bitcoin_7" :=
  ⟨cacheKeys_injective.1 1 50 1 50 rfl,
   cacheKeys_injective.2.1 "bitcoin" "bitcoin" 7 7 rfl,
   by decide, by decide⟩

/-! ## JSON values and JS truthiness

`response.json()` can decode to any JSON value; the call sites branch on the
truthiness of decoded data (`if (cached)`), so the model keeps the JS
truthiness predicate: `null`, `false`, `0` and `""` are falsy, every array and
object (even empty) is truthy. -/

inductive Json where
  | null : Json
  | bool : Bool → Json
  | num : ℚ → Json
  | str : String → Json
  | arr : List Json → Json
  | obj : List (String × Json) → Json

def truthy : Json → Bool
  | .null => false
  | .bool b => b
  | .num q => q ≠ 0
  | .str s => s ≠ ""
  | .arr _ => true
  | .obj _ => true

/-- Property access `o.k` on a decoded JSON value: defined on objects, and
`undefined` (here `none`) on anything else or when the field is absent. -/
def getField : Json → String → Option Json
  | .obj fields, k => fieldLookup fields k
  | _, _ => none
where fieldLookup : List (String × Json) → String → Option Json
  | [], _ => none
  | (k', v) :: rest, k => if k' = k then some v else fieldLookup rest k

/-! ## The fetch/cache layer (`api.js`)

`CryptoAPI` holds `this.cache` (a `Map` from key strings to
`{data, timestamp}`) and `this.cacheTimeout = 5 * 60 * 1000`.  The cache is
modelled as a function from keys to optional entries; `Map.set` overwrites in
place.  Each fetch operation samples the clock once (`now`) and consults a
network oracle `net` describing how its single `fetch` would resolve. -/

/-- How the one HTTP request of a call would resolve: `ok` is a successful
status with a decodable body, `httpError` a non-success status
(`!response.ok`), `decodeError` a successful status whose body
`response.json()` fails to parse. -/
inductive FetchResult where
  | ok : Json → FetchResult
  | httpError : Nat → FetchResult
  | decodeError : FetchResult

/-- Error taxonomy of the spec: `network` is the `HTTP error! status: …`
throw, `decode` the JSON parse failure; both propagate uncaught
(`makeRequest` re-throws after logging). -/
inductive ApiError where
  | network : Nat → ApiError
  | decode : ApiError

/-- `CryptoAPI.makeRequest` (api.js lines 30–44): throw on non-ok status,
otherwise decode the body; any failure is re-thrown to the caller. -/
def makeRequest : FetchResult → Except ApiError Json
  | .ok d => .ok d
  | .httpError s => .error (.network s)
  | .decodeError => .error .decode

/-- The `CryptoAPI` instance state: `this.cache`. -/
structure ApiState where
  cache : String → Option (Json × Int)

/-- `this.cacheTimeout = 5 * 60 * 1000` (api.js line 22). -/
def cacheTimeout : Int := 5 * 60 * 1000

/-- `CryptoAPI.getCachedData` (api.js lines 51–57): return the entry's data
while `now - timestamp < cacheTimeout`, else `null`. -/
def getCachedData (st : ApiState) (now : Int) (key : String) : Option Json :=
  match st.cache key with
  | some (d, ts) => if now - ts < cacheTimeout then some d else none
  | none => none

/-- `CryptoAPI.setCachedData` (api.js lines 64–69): `Map.set` with the current
timestamp, overwriting any previous entry under the same key. -/
def setCachedData (st : ApiState) (now : Int) (key : String) (d : Json) : ApiState :=
  ⟨fun k => if k = key then some (d, now) else st.cache k⟩

/-- The call-site pattern `const cached = this.getCachedData(key); if (cached)`
— a JS truthiness test on the returned value, so a cached falsy value is
indistinguishable from a miss. -/
def cachedTruthy (st : ApiState) (now : Int) (key : String) : Option Json :=
  match getCachedData st now key with
  | some d => if truthy d then some d else none
  | none => none

/-- Outcome of one fetch operation: the value returned (or error thrown), the
cache state afterwards, and how many network requests were issued. -/
structure FetchOut where
  result : Except ApiError Json
  state : ApiState
  requests : Nat

/-- Common body of the three fetch operations (they differ only in the cache
key and URL): on truthy cache hit return it with no request; otherwise issue
the one request, store a successful response under the key, and let a failure
propagate with the cache untouched. -/
def fetchWithCache (st : ApiState) (now : Int) (net : FetchResult)
    (key : String) : FetchOut :=
  match cachedTruthy st now key with
  | some d => ⟨.ok d, st, 0⟩
  | none =>
    match makeRequest net with
    | .ok d => ⟨.ok d, setCachedData st now key d, 1⟩
    | .error e => ⟨.error e, st, 1⟩

/-- `CryptoAPI.getCryptocurrencies(page, perPage)` (api.js lines 77–96). -/
def getCryptocurrencies (st : ApiState) (now : Int) (net : FetchResult)
    (page perPage : Nat) : FetchOut :=
  fetchWithCache st now net (coinsKey page perPage)

/-- `CryptoAPI.getGlobalData()` (api.js lines 102–115). -/
def getGlobalData (st : ApiState) (now : Int) (net : FetchResult) : FetchOut :=
  fetchWithCache st now net globalKey

/-- `CryptoAPI.getCoinHistory(coinId, days)` (api.js lines 123–142). -/
def getCoinHistory (st : ApiState) (now : Int) (net : FetchResult)
    (coinId : String) (days : Nat) : FetchOut :=
  fetchWithCache st now net (historyKey coinId days)

/-- `CryptoAPI.clearCache` (api.js lines 164–166): `Map.clear`. -/
def clearCache (_st : ApiState) : ApiState :=
  ⟨fun _ => none⟩

/-! ### Cache behaviour lemmas shared by the claims -/

theorem fetchWithCache_hit {st : ApiState} {now ts : Int} {d : Json}
    {key : String} (hc : st.cache key = some (d, ts))
    (httl : now - ts < cacheTimeout) (htr : truthy d = true)
    (net : FetchResult) :
    fetchWithCache st now net key = ⟨.ok d, st, 0⟩ := by
  unfold fetchWithCache cachedTruthy getCachedData
  rw [hc]
  simp [httl, htr]

theorem fetchWithCache_miss {st : ApiState} {now : Int} {key : String}
    (hmiss : cachedTruthy st now key = none) (net : FetchResult) :
    fetchWithCache st now net key =
      match makeRequest net with
      | .ok d => ⟨.ok d, setCachedData st now key d, 1⟩
      | .error e => ⟨.error e, st, 1⟩ := by
  unfold fetchWithCache
  rw [hmiss]

theorem cachedTruthy_of_expired {st : ApiState} {now ts : Int} {d : Json}
    {key : String} (hc : st.cache key = some (d, ts))
    (hexp : cacheTimeout ≤ now - ts) :
    cachedTruthy st now key = none := by
  unfold cachedTruthy getCachedData
  rw [hc]
  simp [not_lt.mpr hexp]

theorem setCachedData_self (st : ApiState) (now : Int) (key : String)
    (d : Json) : (setCachedData st now key d).cache key = some (d, now) := by
  simp [setCachedData]

theorem setCachedData_other (st : ApiState) (now : Int) (key : String)
    (d : Json) (k : String) (hk : k ≠ key) :
    (setCachedData st now key d).cache k = st.cache k := by
  simp [setCachedData, hk]

theorem fetchWithCache_error {st : ApiState} {now : Int} {net : FetchResult}
    {e : ApiError} {key : String} (hmiss : cachedTruthy st now key = none)
    (herr : makeRequest net = .error e) :
    fetchWithCache st now net key = ⟨.error e, st, 1⟩ := by
  rw [fetchWithCache_miss hmiss net, herr]

theorem fetchWithCache_requests_of_miss {st : ApiState} {now : Int}
    {key : String} (hmiss : cachedTruthy st now key = none)
    (net : FetchResult) : (fetchWithCache st now net key).requests = 1 := by
  rw [fetchWithCache_miss hmiss net]
  cases makeRequest net <;> rfl

theorem expired_refetch_generic {st : ApiState} {now ts : Int} {d0 : Json}
    {key : String} (hc : st.cache key = some (d0, ts))
    (hexp : cacheTimeout ≤ now - ts) (fresh : Json) :
    (∀ net, (fetchWithCache st now net key).requests = 1) ∧
    fetchWithCache st now (.ok fresh) key
      = ⟨.ok fresh, setCachedData st now key fresh, 1⟩ ∧
    (fetchWithCache st now (.ok fresh) key).state.cache key = some (fresh, now) ∧
    (∀ k, k ≠ key →
        (fetchWithCache st now (.ok fresh) key).state.cache k = st.cache k) := by
  have hmiss := cachedTruthy_of_expired hc hexp
  have h3 : fetchWithCache st now (.ok fresh) key
      = ⟨.ok fresh, setCachedData st now key fresh, 1⟩ :=
    fetchWithCache_miss hmiss (.ok fresh)
  refine ⟨fun net => fetchWithCache_requests_of_miss hmiss net, h3, ?_, ?_⟩
  · rw [h3]
    exact setCachedData_self st now key fresh
  · intro k hk
    rw [h3]
    exact setCachedData_other st now key fresh k hk

/-! ### C1 — cache hit within the TTL -/

/-- A cache state holding a `null` JSON value (decodable from a body `null`)
for the page-1/per-page-50 listing key, captured at time `0`. -/
def nullEntryState : ApiState :=
  ⟨fun k => if k = coinsKey 1 50 then some (Json.null, 0) else none⟩

/-- C1 counterexample: a cache entry for identical parameters exists and is
younger than the TTL, yet the call issues a network request and returns the
fresh response instead of the cached data — the call sites test `if (cached)`,
so a cached falsy JSON value (here `null`) is treated as a miss. -/
theorem cache_hit_claim_counterexample :
    nullEntryState.cache (coinsKey 1 50) = some (Json.null, 0) ∧
    (1 : Int) - 0 < cacheTimeout ∧
    (getCryptocurrencies nullEntryState 1 (.ok (Json.arr [])) 1 50).requests ≠ 0 ∧
    (getCryptocurrencies nullEntryState 1 (.ok (Json.arr [])) 1 50).result
      ≠ .ok Json.null :=
  ⟨rfl, by decide, by decide, fun h => Json.noConfusion (Except.ok.inj h)⟩

/-- C1 (amended): for each request shape, if a cache entry for the identical
parameters exists, is younger than the 5-minute TTL, and its data is truthy
(any JSON value other than `null`, `false`, `0`, `""`), the operation returns
the cached data, leaves the cache unchanged, and issues no network request. -/
theorem cache_hit_within_ttl (st : ApiState) (now ts : Int) (d : Json)
    (net : FetchResult) (htr : truthy d = true)
    (httl : now - ts < cacheTimeout) :
    (∀ page perPage : Nat, st.cache (coinsKey page perPage) = some (d, ts) →
        getCryptocurrencies st now net page perPage = ⟨.ok d, st, 0⟩) ∧
    (st.cache globalKey = some (d, ts) →
        getGlobalData st now net = ⟨.ok d, st, 0⟩) ∧
    (∀ (coinId : String) (days : Nat),
        st.cache (historyKey coinId days) = some (d, ts) →
        getCoinHistory st now net coinId days = ⟨.ok d, st, 0⟩) :=
  ⟨fun _ _ hc => fetchWithCache_hit hc httl htr net,
   fun hc => fetchWithCache_hit hc httl htr net,
   fun _ _ hc => fetchWithCache_hit hc httl htr net⟩

/-- A cache state holding a (truthy) array under the global-data key,
captured at time `0`. -/
def globalHitState : ApiState :=
  ⟨fun k => if k = globalKey then some (Json.arr [], 0) else none⟩

/-- Concrete instance of `cache_hit_within_ttl`: 1 ms after capture, the
global-data call returns the cached array with zero requests even though the
network would fail. -/
theorem cache_hit_within_ttl_witness :
    getGlobalData globalHitState 1 (.httpError 500)
      = ⟨.ok (Json.arr []), globalHitState, 0⟩ :=
  (cache_hit_within_ttl globalHitState 1 0 (Json.arr []) (.httpError 500)
    rfl (by decide)).2.1 rfl

/-! ### C2 — call after the TTL has elapsed -/

/-- C2: for each request shape, a call made when the stored entry has aged
past the TTL (`cacheTimeout ≤ now - ts`) issues exactly one network request
(whatever the network outcome); when the request succeeds the fresh response
is returned and the entry under the same key is overwritten with the fresh
data and the current time, no other key being touched — the stale entry is
superseded, not removed. -/
theorem cache_expired_refetch (st : ApiState) (now ts : Int) (d0 fresh : Json)
    (hexp : cacheTimeout ≤ now - ts) :
    (∀ page perPage : Nat, st.cache (coinsKey page perPage) = some (d0, ts) →
        (∀ net, (getCryptocurrencies st now net page perPage).requests = 1) ∧
        getCryptocurrencies st now (.ok fresh) page perPage
          = ⟨.ok fresh, setCachedData st now (coinsKey page perPage) fresh, 1⟩ ∧
        (getCryptocurrencies st now (.ok fresh) page perPage).state.cache
            (coinsKey page perPage) = some (fresh, now) ∧
        (∀ k, k ≠ coinsKey page perPage →
            (getCryptocurrencies st now (.ok fresh) page perPage).state.cache k
              = st.cache k)) ∧
    (st.cache globalKey = some (d0, ts) →
        (∀ net, (getGlobalData st now net).requests = 1) ∧
        getGlobalData st now (.ok fresh)
          = ⟨.ok fresh, setCachedData st now globalKey fresh, 1⟩ ∧
        (getGlobalData st now (.ok fresh)).state.cache globalKey
          = some (fresh, now) ∧
        (∀ k, k ≠ globalKey →
            (getGlobalData st now (.ok fresh)).state.cache k = st.cache k)) ∧
    (∀ (coinId : String) (days : Nat),
        st.cache (historyKey coinId days) = some (d0, ts) →
        (∀ net, (getCoinHistory st now net coinId days).requests = 1) ∧
        getCoinHistory st now (.ok fresh) coinId days
          = ⟨.ok fresh, setCachedData st now (historyKey coinId days) fresh, 1⟩ ∧
        (getCoinHistory st now (.ok fresh) coinId days).state.cache
            (historyKey coinId days) = some (fresh, now) ∧
        (∀ k, k ≠ historyKey coinId days →
            (getCoinHistory st now (.ok fresh) coinId days).state.cache k
              = st.cache k)) :=
  ⟨fun _ _ hc => expired_refetch_generic hc hexp fresh,
   fun hc => expired_refetch_generic hc hexp fresh,
   fun _ _ hc => expired_refetch_generic hc hexp fresh⟩

/-- A cache state holding an object under the global-data key, captured at
time `0`. -/
def globalStaleState : ApiState :=
  ⟨fun k => if k = globalKey then some (Json.obj [], 0) else none⟩

/-- Concrete instance of `cache_expired_refetch`: exactly at TTL expiry the
global-data call refetches and the key now holds the fresh value with the new
timestamp. -/
theorem cache_expired_refetch_witness :
    getGlobalData globalStaleState 300000 (.ok (Json.arr []))
      = ⟨.ok (Json.arr []),
         setCachedData globalStaleState 300000 globalKey (Json.arr []), 1⟩ ∧
    (getGlobalData globalStaleState 300000 (.ok (Json.arr []))).state.cache
        globalKey = some (Json.arr [], 300000) :=
  ⟨((cache_expired_refetch globalStaleState 300000 0 (Json.obj [])
      (Json.arr []) (by decide)).2.1 rfl).2.1,
   ((cache_expired_refetch globalStaleState 300000 0 (Json.obj [])
      (Json.arr []) (by decide)).2.1 rfl).2.2.1⟩

/-! ### C7 — clearCache -/

/-- C7: `clearCache` removes every cache entry unconditionally, and the next
call of any of the three fetch operations — any parameters, any elapsed time,
any network outcome — issues a network request. -/
theorem clearCache_forces_refetch (st : ApiState) (now : Int)
    (net : FetchResult) (page perPage days : Nat) (coinId : String) :
    (∀ k, (clearCache st).cache k = none) ∧
    (getCryptocurrencies (clearCache st) now net page perPage).requests = 1 ∧
    (getGlobalData (clearCache st) now net).requests = 1 ∧
    (getCoinHistory (clearCache st) now net coinId days).requests = 1 :=
  have h : ∀ key, cachedTruthy (clearCache st) now key = none := fun _ => rfl
  ⟨fun _ => rfl,
   fetchWithCache_requests_of_miss (h _) net,
   fetchWithCache_requests_of_miss (h _) net,
   fetchWithCache_requests_of_miss (h _) net⟩

/-! ### C8 — failed request leaves the cache unchanged -/

/-- C8: a non-success HTTP status maps to `NetworkError` and an unparseable
body to `DecodeError`; for each of the three fetch operations, when the cache
does not serve the call, such a failure propagates to the caller as the
call's result, exactly one request is attempted, and the cache state is
returned completely unchanged. -/
theorem fetch_failure (st : ApiState) (now : Int) (net : FetchResult)
    (e : ApiError) (page perPage days : Nat) (coinId : String)
    (herr : makeRequest net = .error e) :
    (∀ s, makeRequest (.httpError s) = .error (.network s)) ∧
    makeRequest .decodeError = .error .decode ∧
    (cachedTruthy st now (coinsKey page perPage) = none →
        getCryptocurrencies st now net page perPage = ⟨.error e, st, 1⟩) ∧
    (cachedTruthy st now globalKey = none →
        getGlobalData st now net = ⟨.error e, st, 1⟩) ∧
    (cachedTruthy st now (historyKey coinId days) = none →
        getCoinHistory st now net coinId days = ⟨.error e, st, 1⟩) :=
  ⟨fun _ => rfl, rfl,
   fun hmiss => fetchWithCache_error hmiss herr,
   fun hmiss => fetchWithCache_error hmiss herr,
   fun hmiss => fetchWithCache_error hmiss herr⟩

/-- The empty cache, as a fresh `CryptoAPI` instance starts with. -/
def emptyApiState : ApiState := ⟨fun _ => none⟩

/-- Concrete instance of `fetch_failure`: a 404 on a cold cache propagates as
`NetworkError` with one request and an unchanged (still empty) cache. -/
theorem fetch_failure_witness :
    getCryptocurrencies emptyApiState 0 (.httpError 404) 1 50
      = ⟨.error (.network 404), emptyApiState, 1⟩ :=
  (fetch_failure emptyApiState 0 (.httpError 404) (.network 404)
    1 50 7 "bitcoin" rfl).2.2.1 rfl

/-! ## `searchCoins` (api.js lines 150–159)

`searchCoins(query, allCoins)` reads only its two arguments: blank queries
return the input list, otherwise the list is filtered by a case-insensitive
substring match of the lower-cased trimmed query against name or symbol.  The
embedding is a pure function of the arguments — by construction it neither
reads nor writes the cache. -/

structure Coin where
  name : String
  symbol : String
deriving DecidableEq

/-- The filter predicate of api.js line 157:
`coin.name.toLowerCase().includes(searchTerm) ||
 coin.symbol.toLowerCase().includes(searchTerm)`. -/
def coinMatches (searchTerm : String) (c : Coin) : Bool :=
  jsIncludes (jsToLower c.name) searchTerm
    || jsIncludes (jsToLower c.symbol) searchTerm

def searchCoins (query : String) (allCoins : List Coin) : List Coin :=
  if query = "" ∨ jsTrim query = "" then allCoins
  else allCoins.filter (coinMatches (jsTrim (jsToLower query)))

/-- C3: `searchCoins` returns the coin list unchanged when the query is empty
or whitespace-only; otherwise it returns a sublist (hence preserving input
order) containing exactly those coins whose lower-cased name or symbol
contains the lower-cased trimmed query as a substring. -/
theorem searchCoins_spec (q : String) (coins : List Coin) :
    (jsTrim q = "" → searchCoins q coins = coins) ∧
    (searchCoins q coins).Sublist coins ∧
    (jsTrim q ≠ "" → ∀ c, c ∈ searchCoins q coins ↔
        c ∈ coins ∧ coinMatches (jsTrim (jsToLower q)) c = true) := by
  refine ⟨?_, ?_, ?_⟩
  · intro h
    unfold searchCoins
    rw [if_pos (Or.inr h)]
  · unfold searchCoins
    split
    · exact List.Sublist.refl coins
    · exact List.filter_sublist coins
  · intro h c
    have hq : ¬(q = "" ∨ jsTrim q = "") := by
      rintro (rfl | h2)
      · exact h rfl
      · exact h h2
    unfold searchCoins
    rw [if_neg hq]
    simp [List.mem_filter]

/-- Concrete instances of `searchCoins_spec`: a whitespace query is the
identity, and an upper-cased query still finds "Bitcoin" by name. -/
theorem searchCoins_spec_witness :
    searchCoins "  " [⟨"Bitcoin", "btc"⟩] = [⟨"Bitcoin", "btc"⟩] ∧
    (⟨"Bitcoin", "btc"⟩ : Coin) ∈ searchCoins "BIT" [⟨"Bitcoin", "btc"⟩] :=
  ⟨(searchCoins_spec "  " [⟨"Bitcoin", "btc"⟩]).1 (by decide),
   ((searchCoins_spec "BIT" [⟨"Bitcoin", "btc"⟩]).2.2 (by decide)
      ⟨"Bitcoin", "btc"⟩).mpr ⟨List.mem_singleton.mpr rfl, by decide⟩⟩

/-! ## Favorites (`favorites.js`)

`FavoritesManager` keeps `this.favorites`, a JS `Set` of coin-id strings;
persistence and DOM updates are side channels that do not feed back into
membership.  The set is embedded as a `Finset String` (JS `Set` insertion
order is irrelevant to every membership claim). -/

/-- `FavoritesManager.addFavorite` (favorites.js line 65): `Set.add`. -/
def addFavorite (favorites : Finset String) (coinId : String) : Finset String :=
  insert coinId favorites

/-- `FavoritesManager.removeFavorite` (favorites.js line 81): `Set.delete`. -/
def removeFavorite (favorites : Finset String) (coinId : String) : Finset String :=
  favorites.erase coinId

/-- `FavoritesManager.isFavorite` (favorites.js lines 109–111): `Set.has`. -/
def isFavorite (favorites : Finset String) (coinId : String) : Bool :=
  decide (coinId ∈ favorites)

/-- `FavoritesManager.toggleFavorite` (favorites.js lines 96–102). -/
def toggleFavorite (favorites : Finset String) (coinId : String) : Finset String :=
  if isFavorite favorites coinId then removeFavorite favorites coinId
  else addFavorite favorites coinId

/-- C5: for every coin id — including ids never seen before — toggling twice
restores the favorites set (hence the id's original membership); an id is a
favorite immediately after `add` and not one immediately after `remove`; and
adding a present id or removing an absent one leaves the set unchanged. -/
theorem favorites_toggle_spec (s : Finset String) (coinId : String) :
    toggleFavorite (toggleFavorite s coinId) coinId = s ∧
    isFavorite (toggleFavorite (toggleFavorite s coinId) coinId) coinId
      = isFavorite s coinId ∧
    isFavorite (addFavorite s coinId) coinId = true ∧
    isFavorite (removeFavorite s coinId) coinId = false ∧
    (isFavorite s coinId = true → addFavorite s coinId = s) ∧
    (isFavorite s coinId = false → removeFavorite s coinId = s) := by
  by_cases h : coinId ∈ s
  · have e1 : toggleFavorite s coinId = s.erase coinId := by
      simp [toggleFavorite, isFavorite, removeFavorite, h]
    have e2 : toggleFavorite (s.erase coinId) coinId = insert coinId (s.erase coinId) := by
      simp [toggleFavorite, isFavorite, addFavorite, Finset.not_mem_erase]
    have e3 : toggleFavorite (toggleFavorite s coinId) coinId = s := by
      rw [e1, e2, Finset.insert_erase h]
    refine ⟨e3, by rw [e3], ?_, ?_, ?_, ?_⟩
    · simp [isFavorite, addFavorite]
    · simp [isFavorite, removeFavorite, Finset.not_mem_erase]
    · intro _
      simp [addFavorite, Finset.insert_eq_self.mpr h]
    · intro hfalse
      simp [isFavorite, h] at hfalse
  · have e1 : toggleFavorite s coinId = insert coinId s := by
      simp [toggleFavorite, isFavorite, addFavorite, h]
    have e2 : toggleFavorite (insert coinId s) coinId = (insert coinId s).erase coinId := by
      simp [toggleFavorite, isFavorite, removeFavorite]
    have e3 : toggleFavorite (toggleFavorite s coinId) coinId = s := by
      rw [e1, e2, Finset.erase_insert h]
    refine ⟨e3, by rw [e3], ?_, ?_, ?_, ?_⟩
    · simp [isFavorite, addFavorite]
    · simp [isFavorite, removeFavorite, Finset.not_mem_erase]
    · intro htrue
      simp [isFavorite, h] at htrue
    · intro _
      simp [removeFavorite, Finset.erase_eq_self.mpr h]

/-- Concrete instances of `favorites_toggle_spec`: re-adding a present id and
removing a never-seen id are no-ops, and a fresh id is a favorite right after
`add`. -/
theorem favorites_toggle_spec_witness :
    addFavorite {"bitcoin"} "bitcoin" = {"bitcoin"} ∧
    removeFavorite (∅ : Finset String) "doge" = ∅ ∧
    isFavorite (addFavorite ∅ "doge") "doge" = true :=
  ⟨(favorites_toggle_spec {"bitcoin"} "bitcoin").2.2.2.2.1 (by decide),
   (favorites_toggle_spec ∅ "doge").2.2.2.2.2 (by decide),
   (favorites_toggle_spec ∅ "doge").2.2.1⟩

/-! ## Display formatters (`utils.js`)

Percentage changes are embedded as `ℚ`; `null`/`undefined` inputs are `none`
(NaN is not representable in `ℚ` and every value the claims exercise is an
exact decimal).  `toFixed2` embeds JS `Number.prototype.toFixed(2)`, which
picks the integer `n` minimising `|n / 100 - x|` and the larger `n` on ties
— i.e. round half up for the non-negative arguments `Math.abs` produces. -/

def toFixed2 (q : ℚ) : String :=
  let n : Nat := (Int.floor (q * 100 + 1 / 2)).toNat
  natToString (n / 100) ++ "."
    ++ (if n % 100 < 10 then "0" ++ natToString (n % 100) else natToString (n % 100))

/-- `formatPercentage` (utils.js lines 39–47): `"N/A"` for `null`/`undefined`,
otherwise the sign of the change (`>= 0` gives `"+"`) followed by the absolute
value to two decimals and `"%"`. -/
def formatPercentage (change : Option ℚ) : String :=
  match change with
  | none => "N/A"
  | some c => (if 0 ≤ c then "+" else "-") ++ toFixed2 (abs c) ++ "%"

/-- `getChangeClass` (utils.js lines 68–72). -/
def getChangeClass (change : ℚ) : String :=
  if 0 < change then "positive" else if change < 0 then "negative" else ""

/-- `getChangeArrow` (utils.js lines 54–61). -/
def getChangeArrow (change : ℚ) : String :=
  if 0 < change then "<i class=\"fas fa-arrow-up\"></i>"
  else if change < 0 then "<i class=\"fas fa-arrow-down\"></i>"
  else "<i class=\"fas fa-minus\"></i>"

/-- C9: a 24-hour change of `-2.5` renders as the string `"-2.50%"`, the
`"negative"` style class, and the downward-arrow icon markup. -/
theorem toFixed2_eval (q : ℚ) (n : Nat)
    (h : Int.floor (q * 100 + 1 / 2) = (n : Int)) :
    toFixed2 q = natToString (n / 100) ++ "."
      ++ (if n % 100 < 10 then "0" ++ natToString (n % 100)
          else natToString (n % 100)) := by
  unfold toFixed2
  rw [h, Int.toNat_ofNat]

theorem render_negative_change :
    formatPercentage (some (-(5 / 2 : ℚ))) = "-2.50%" ∧
    getChangeClass (-(5 / 2 : ℚ)) = "negative" ∧
    getChangeArrow (-(5 / 2 : ℚ)) = "<i class=\"fas fa-arrow-down\"></i>" := by
  have habs : |(-(5 / 2 : ℚ))| = 5 / 2 := by
    rw [abs_neg]
    exact abs_of_nonneg (by norm_num)
  have hfloor : Int.floor ((5 / 2 : ℚ) * 100 + 1 / 2) = ((250 : Nat) : Int) :=
    Int.floor_eq_iff.mpr (by norm_num)
  have ht : toFixed2 (5 / 2 : ℚ) = "2.50" := by
    rw [toFixed2_eval (5 / 2 : ℚ) 250 hfloor]
    decide
  refine ⟨?_, ?_, ?_⟩
  · show (if 0 ≤ (-(5 / 2) : ℚ) then "+" else "-")
        ++ toFixed2 |(-(5 / 2 : ℚ))| ++ "%" = "-2.50%"
    rw [if_neg (by norm_num), habs, ht]
    decide
  · unfold getChangeClass
    rw [if_neg (by norm_num), if_pos (by norm_num)]
  · unfold getChangeArrow
    rw [if_neg (by norm_num), if_pos (by norm_num)]

/-- `coin.price_change_percentage_24h || 0` (main.js line 119,
favorites.js line 282): JS `||` replaces a falsy change — `null`,
`undefined`, `0` — by `0`. -/
def rowPriceChange (v : Option ℚ) : ℚ :=
  match v with
  | none => 0
  | some x => if x = 0 then 0 else x

/-- C10: row rendering coerces an absent 24-hour change to `0` before
formatting, so the `"N/A"` branch of `formatPercentage` is unreachable from
row rendering, an absent change renders as `"+0.00%"` (zero gets the `"+"`
sign) with the neutral (empty) style class and the minus icon. -/
theorem render_missing_change (v : Option ℚ) :
    formatPercentage (some (rowPriceChange v)) ≠ "N/A" ∧
    rowPriceChange none = 0 ∧
    formatPercentage (some 0) = "+0.00%" ∧
    getChangeClass 0 = "" ∧
    getChangeArrow 0 = "<i class=\"fas fa-minus\"></i>" := by
  have hfloor0 : Int.floor ((0 : ℚ) * 100 + 1 / 2) = ((0 : Nat) : Int) :=
    Int.floor_eq_iff.mpr (by norm_num)
  have hzero : formatPercentage (some 0) = "+0.00%" := by
    show (if 0 ≤ (0 : ℚ) then "+" else "-") ++ toFixed2 |(0 : ℚ)| ++ "%" = "+0.00%"
    rw [if_pos le_rfl, abs_zero, toFixed2_eval 0 0 hfloor0]
    decide
  have hclass : getChangeClass 0 = "" := by
    unfold getChangeClass
    rw [if_neg (lt_irrefl 0), if_neg (lt_irrefl 0)]
  have harrow : getChangeArrow 0 = "<i class=\"fas fa-minus\"></i>" := by
    unfold getChangeArrow
    rw [if_neg (lt_irrefl 0), if_neg (lt_irrefl 0)]
  refine ⟨?_, rfl, hzero, hclass, harrow⟩
  show ((if 0 ≤ rowPriceChange v then "+" else "-")
      ++ toFixed2 (abs (rowPriceChange v)) ++ "%") ≠ "N/A"
  rcases le_or_lt 0 (rowPriceChange v) with hq | hq
  · rw [if_pos hq]
    intro h
    have hd := congrArg String.data h
    rw [data_append, data_append,
        show ("+" : String).data = ['+'] from rfl,
        show ("N/A" : String).data = ['N', '/', 'A'] from rfl,
        List.singleton_append, List.cons_append] at hd
    injection hd with h1 _
    exact absurd h1 (by decide)
  · rw [if_neg (not_le.mpr hq)]
    intro h
    have hd := congrArg String.data h
    rw [data_append, data_append,
        show ("-" : String).data = ['-'] from rfl,
        show ("N/A" : String).data = ['N', '/', 'A'] from rfl,
        List.singleton_append, List.cons_append] at hd
    injection hd with h1 _
    exact absurd h1 (by decide)

/-- Concrete instance of `render_missing_change` at an absent change. -/
theorem render_missing_change_witness :
    formatPercentage (some (rowPriceChange none)) ≠ "N/A" ∧
    formatPercentage (some 0) = "+0.00%" :=
  ⟨(render_missing_change none).1, (render_missing_change none).2.2.1⟩

/-! ## The view orchestrator (`main.js`)

`CryptoApp.loadData` runs the coin-list fetch and the global-stats fetch
with `Promise.all`, the global one wrapped in `.catch(() => null)`.  Both
start against the same cache and use distinct keys, so threading the cache
through them sequentially is equivalent.  DOM output is modelled by the
fields of `AppState`: the authoritative list `coins`, the global-stats
display (`StatsDisplay.na` is the "N/A" placeholder), the favorites-view
table, and the orchestrator state `ui` (spec §4.4: Idle / Loading / Error;
`error` means `showError` was the last display action of the cycle). -/

inductive ViewMode where
  | all : ViewMode
  | favorites : ViewMode
deriving DecidableEq

inductive UiState where
  | loading : UiState
  | idle : UiState
  | error : UiState
deriving DecidableEq

/-- What feeds the two global-stat DOM fields: either the "N/A" placeholder
branch, or the raw values `data.total_market_cap?.usd` and
`data.active_cryptocurrencies` handed to the display formatters. -/
inductive StatsDisplay where
  | na : StatsDisplay
  | fromData : Option Json → Option Json → StatsDisplay

def jsTruthyOpt : Option Json → Bool
  | none => false
  | some v => truthy v

/-- JS optional chaining `x?.k`: `undefined` when `x` is `null`/`undefined`,
else the property access. -/
def optChain : Option Json → String → Option Json
  | none, _ => none
  | some .null, _ => none
  | some v, k => getField v k

/-- `CryptoApp.updateGlobalStats` (main.js lines 191–203): with truthy
`globalData` and truthy `globalData.data` the two stat fields are fed from
the data object, otherwise both show "N/A". -/
def updateGlobalStats (globalData : Option Json) : StatsDisplay :=
  match globalData with
  | none => .na
  | some g =>
    if truthy g && jsTruthyOpt (getField g "data") then
      match getField g "data" with
      | some d => .fromData (optChain (getField d "total_market_cap") "usd")
          (getField d "active_cryptocurrencies")
      | none => .na
    else .na

structure AppState where
  view : ViewMode
  coins : Json
  stats : StatsDisplay
  favTable : Option Json
  favorites : List String
  ui : UiState

/-- `FavoritesManager.filterFavorites` (favorites.js lines 174–176) applied
to a decoded coin array: keep the coins whose `id` is a favorited string.
(The fetch layer only ever hands this an array; a non-array has no
`.filter`.) -/
def filterFavorites (favorites : List String) (coins : Json) : List Json :=
  match coins with
  | .arr l =>
    l.filter fun c =>
      match getField c "id" with
      | some (.str s) => favorites.contains s
      | _ => false
  | _ => []

/-- `FavoritesManager.loadFavoritesView` (favorites.js lines 226–261): empty
favorites short-circuit to the empty state with no fetch; otherwise fetch
page 1 with 250 per page, display the favorited subset (empty state if the
subset is empty), and catch any fetch error internally (`showError`, no
rethrow). -/
def loadFavoritesView (app : AppState) (api : ApiState) (now : Int)
    (favNet : FetchResult) : AppState × ApiState × Nat :=
  if app.favorites.isEmpty then
    ({app with favTable := none}, api, 0)
  else
    let out := getCryptocurrencies api now favNet 1 250
    match out.result with
    | .ok allCoins =>
      let favCoins := filterFavorites app.favorites allCoins
      if favCoins.isEmpty then
        ({app with favTable := none}, out.state, out.requests)
      else
        ({app with favTable := some (.arr favCoins)}, out.state, out.requests)
    | .error _ => ({app with ui := .error}, out.state, out.requests)

/-- `CryptoApp.loadData` (main.js lines 40–79).  `coinNet` / `globalNet` /
`favNet` are the network oracles for the (at most) three requests of one
cycle.  A coin-list failure rejects the `Promise.all` and lands in the
`catch` block (`showError`); a global-stats failure is swallowed by
`.catch(() => null)` and only degrades the stats display. -/
def loadData (app : AppState) (api : ApiState) (now : Int)
    (coinNet globalNet favNet : FetchResult) : AppState × ApiState × Nat :=
  let app0 := {app with ui := UiState.loading}
  let o1 := getCryptocurrencies api now coinNet 1 50
  let o2 := getGlobalData o1.state now globalNet
  let globalData : Option Json :=
    match o2.result with
    | .ok g => some g
    | .error _ => none
  match o1.result with
  | .error _ => ({app0 with ui := .error}, o2.state, o1.requests + o2.requests)
  | .ok coinsData =>
    let app1 := {app0 with coins := coinsData}
    let step :=
      match app1.view with
      | .favorites => loadFavoritesView app1 o2.state now favNet
      | .all => (app1, o2.state, 0)
    let app3 := {step.1 with
      stats := updateGlobalStats globalData,
      ui := match step.1.ui with
            | .error => UiState.error
            | _ => UiState.idle}
    (app3, step.2.1, o1.requests + o2.requests + step.2.2)

theorem cachedTruthy_congr {st st' : ApiState} {key : String} (now : Int)
    (h : st.cache key = st'.cache key) :
    cachedTruthy st now key = cachedTruthy st' now key := by
  unfold cachedTruthy getCachedData
  rw [h]

theorem fetchWithCache_state_other (st : ApiState) (now : Int)
    (net : FetchResult) (key k : String) (hk : k ≠ key) :
    (fetchWithCache st now net key).state.cache k = st.cache k := by
  unfold fetchWithCache
  cases hct : cachedTruthy st now key with
  | some d => rfl
  | none =>
    cases makeRequest net with
    | ok dd => exact setCachedData_other st now key dd k hk
    | error e => rfl

/-- C6: in a load cycle whose coin-list fetch fails, the orchestrator ends in
the `Error` state with the authoritative coin list and the global-stats
display untouched, whatever the global-stats fetch did; conversely, with the
all-coins view active, a cycle whose coin-list fetch succeeds and whose
global-stats fetch alone fails ends `Idle` with the stats display degraded to
the "N/A" placeholder and the fresh coin list installed. -/
theorem loadData_error_isolation (app : AppState) (api : ApiState) (now : Int) :
    (∀ (coinNet globalNet favNet : FetchResult) (e : ApiError),
        cachedTruthy api now (coinsKey 1 50) = none →
        makeRequest coinNet = .error e →
        (loadData app api now coinNet globalNet favNet).1.ui = .error ∧
        (loadData app api now coinNet globalNet favNet).1.coins = app.coins ∧
        (loadData app api now coinNet globalNet favNet).1.stats = app.stats) ∧
    (∀ (coinNet globalNet favNet : FetchResult) (d : Json) (e : ApiError),
        app.view = .all →
        (getCryptocurrencies api now coinNet 1 50).result = .ok d →
        cachedTruthy api now globalKey = none →
        makeRequest globalNet = .error e →
        (loadData app api now coinNet globalNet favNet).1.ui = .idle ∧
        (loadData app api now coinNet globalNet favNet).1.stats = .na ∧
        (loadData app api now coinNet globalNet favNet).1.coins = d) := by
  constructor
  · intro coinNet globalNet favNet e hmiss herr
    have h1 : getCryptocurrencies api now coinNet 1 50 = ⟨.error e, api, 1⟩ :=
      fetchWithCache_error hmiss herr
    simp only [loadData, h1]
    exact ⟨trivial, trivial, trivial⟩
  · intro coinNet globalNet favNet d e hview hok hgmiss hgerr
    have hpres : (getCryptocurrencies api now coinNet 1 50).state.cache globalKey
        = api.cache globalKey :=
      fetchWithCache_state_other api now coinNet (coinsKey 1 50) globalKey
        (by decide)
    have hgmiss' : cachedTruthy (getCryptocurrencies api now coinNet 1 50).state
        now globalKey = none := by
      rw [cachedTruthy_congr now hpres]
      exact hgmiss
    have h2 : getGlobalData (getCryptocurrencies api now coinNet 1 50).state
        now globalNet
        = ⟨.error e, (getCryptocurrencies api now coinNet 1 50).state, 1⟩ :=
      fetchWithCache_error hgmiss' hgerr
    simp only [loadData, h2, hok, hview]
    exact ⟨trivial, rfl, trivial⟩

/-- A sample orchestrator state in the all-coins view. -/
def sampleApp : AppState :=
  ⟨ViewMode.all, Json.arr [], StatsDisplay.na, none, [], UiState.idle⟩

/-- Concrete instances of `loadData_error_isolation` on a cold cache: a 500
on the coin list fails the cycle even though the global fetch succeeded, and
an undecodable global-stats body alone leaves an idle cycle with "N/A"
stats. -/
theorem loadData_error_isolation_witness :
    (loadData sampleApp emptyApiState 0 (.httpError 500) (.ok (Json.obj []))
        (.ok (Json.arr []))).1.ui = .error ∧
    (loadData sampleApp emptyApiState 0 (.ok (Json.arr [])) .decodeError
        (.ok (Json.arr []))).1.stats = .na :=
  ⟨((loadData_error_isolation sampleApp emptyApiState 0).1 (.httpError 500)
      (.ok (Json.obj [])) (.ok (Json.arr [])) (.network 500) rfl rfl).1,
   ((loadData_error_isolation sampleApp emptyApiState 0).2 (.ok (Json.arr []))
      .decodeError (.ok (Json.arr [])) (Json.arr []) .decode rfl rfl rfl
      rfl).2.1⟩

end Crypto
